import Mathlib

/-!
Shallow embedding of the task/assignee tracking service:
`src/routes/tasks.js` (Task collection routes, transactional) and
`src/unnamed/part_000` (= `routes/users.js`, User collection routes,
non-transactional).  Stores are lists of documents; Mongo update operators
(`$addToSet`, `$pull`, `updateMany`, `findByIdAndUpdate`, `deleteOne`) are
embedded as list transformations.
-/

namespace TaskApi

/-- `$addToSet`: append an element only if it is not already present. -/
def addToSet (l : List String) (x : String) : List String :=
  if x ∈ l then l else l ++ [x]

/-- First-occurrence de-duplication, as performed by `new Set(...)` in JS
(`userRoute.put` builds `oldPending`/`newPending` this way). -/
def dedupAux (seen : List String) : List String → List String
  | [] => []
  | x :: xs => if x ∈ seen then dedupAux seen xs else x :: dedupAux (x :: seen) xs

def dedupFirst (l : List String) : List String := dedupAux [] l

/-- The longest leading run of decimal digits of a character list. -/
def leadingDigits : List Char → List Char
  | [] => []
  | c :: cs => if c.isDigit then c :: leadingDigits cs else []

/-- JS `parseInt(s, 10)`: skip leading whitespace, optional sign, then the
longest digit run; `NaN` (here `none`) when no digit follows. -/
def parseIntJS (s : String) : Option Int :=
  let cs := s.toList.dropWhile (fun c => c.isWhitespace)
  let signRest : Int × List Char :=
    match cs with
    | '-' :: cs2 => (-1, cs2)
    | '+' :: cs2 => (1, cs2)
    | _ => (1, cs)
  let ds := leadingDigits signRest.2
  if ds.isEmpty then none
  else some (signRest.1 * (ds.foldl (fun acc c => acc * 10 + ((c.toNat : Int) - 48)) 0))

def isHexChar (c : Char) : Bool :=
  c.isDigit || ('a' ≤ c && c ≤ 'f') || ('A' ≤ c && c ≤ 'F')

/-- `mongoose.Types.ObjectId.isValid` on a string: a 24-character hex string
or any 12-character string. -/
def isValidObjectId (s : String) : Bool :=
  (s.toList.length == 24 && s.toList.all isHexChar) || s.toList.length == 12

/-- JS `String(x).trim() !== ''`: the string contains a non-whitespace char. -/
def hasNonWs (s : String) : Bool :=
  s.toList.any (fun c => !c.isWhitespace)

structure User where
  id : String
  name : String
  email : String
  pendingTasks : List String
  dateCreated : Nat
deriving DecidableEq, Repr

structure Task where
  id : String
  name : String
  description : String
  deadline : String
  completed : Bool
  assignedUser : String
  assignedUserName : String
  dateCreated : Nat
deriving DecidableEq, Repr

structure Store where
  users : List User
  tasks : List Task
deriving DecidableEq, Repr

def findUser (s : Store) (uid : String) : Option User :=
  s.users.find? (fun u => u.id == uid)

def findTask (s : Store) (tid : String) : Option Task :=
  s.tasks.find? (fun t => t.id == tid)

/-- Store wellformedness (what Mongo guarantees about `_id`s): document ids
are injective within a collection and user ids are nonempty. -/
def StoreWF (s : Store) : Prop :=
  (∀ u ∈ s.users, ∀ v ∈ s.users, u.id = v.id → u = v) ∧
  (∀ t ∈ s.tasks, ∀ r ∈ s.tasks, t.id = r.id → t = r) ∧
  (∀ u ∈ s.users, u.id ≠ "")

/-- The bidirectional referential invariant of the spec: a task is in a
user's `pendingTasks` exactly when it is assigned to that user and not
completed. -/
def Invariant (s : Store) : Prop :=
  ∀ t ∈ s.tasks, ∀ u ∈ s.users,
    ((t.assignedUser = u.id ∧ t.completed = false) ↔ t.id ∈ u.pendingTasks)

/-- A fresh Mongo `_id` for an inserted task: unused by every task and
absent from every `pendingTasks` list. -/
def FreshId (s : Store) (fid : String) : Prop :=
  (∀ t ∈ s.tasks, t.id ≠ fid) ∧ (∀ u ∈ s.users, fid ∉ u.pendingTasks)

inductive ApiError
  | invalidQueryParameter (param : String)
  | missingRequiredField
  | invalidReference
  | referenceNotFound
  | notFound
  | validationError
  | uniquenessConflict
deriving DecidableEq, Repr

/-- `ensureUserExists` (src/routes/tasks.js lines 26-41): empty id resolves
to no assignee; a structurally invalid id is an invalid reference; a valid
id with no matching user is a missing reference; otherwise the user document
(with its current name) is returned. -/
def ensureUserExists (s : Store) (userId : String) : Except ApiError (Option User) :=
  if userId = "" then .ok none
  else if !isValidObjectId userId then .error .invalidReference
  else
    match findUser s userId with
    | none => .error .referenceNotFound
    | some u => .ok (some u)

structure TaskBody where
  name : Option String
  description : Option String
  deadline : Option String
  completed : Bool
  assignedUser : Option String
  assignedUserName : Option String
deriving Repr

/-- The assignee resolution performed identically in `tasksRoute.post`
(lines 93-100) and `taskRoute.put` (lines 169-175): a missing/empty/blank
`assignedUser` yields `("", "unassigned")`; otherwise the id is validated
and the name is read from the store. -/
def resolveAssignee (s : Store) (raw : Option String) : Except ApiError (String × String) :=
  match raw with
  | none => .ok ("", "unassigned")
  | some str =>
    if str ≠ "" ∧ hasNonWs str then
      match ensureUserExists s str with
      | .error e => .error e
      | .ok none => .ok ("", "unassigned")
      | .ok (some u) => .ok (u.id, u.name)
    else .ok ("", "unassigned")

/-- Modelled from the spec: the Task schema (`models/task.js` is not under
`src/`) — `name` is required and non-empty, `deadline` is required; saving a
document violating this raises a `ValidationError`. -/
def validateTaskDoc (t : Task) : Bool :=
  t.name ≠ "" && t.deadline ≠ ""

def clearTask (t : Task) : Task :=
  { t with assignedUser := "", assignedUserName := "unassigned" }

/-- `User.findByIdAndUpdate(uid, { $pull: { pendingTasks: tid } })`. -/
def pullPendingStore (s : Store) (uid tid : String) : Store :=
  { s with users := s.users.map (fun u =>
      if u.id = uid then { u with pendingTasks := u.pendingTasks.filter (fun x => x ≠ tid) } else u) }

/-- `User.findByIdAndUpdate(uid, { $addToSet: { pendingTasks: tid } })`. -/
def addPendingStore (s : Store) (uid tid : String) : Store :=
  { s with users := s.users.map (fun u =>
      if u.id = uid then { u with pendingTasks := addToSet u.pendingTasks tid } else u) }

/-- The store after `tasksRoute.post` commits: the new task appended and,
when it is assigned and not completed, its id `$addToSet`-ed into the
assignee's `pendingTasks` (lines 115-121). -/
def taskPostApply (s : Store) (task : Task) : Store :=
  let s1 : Store := { s with tasks := s.tasks ++ [task] }
  if task.assignedUser ≠ "" ∧ task.completed = false
  then addPendingStore s1 task.assignedUser task.id else s1

/-- POST /api/tasks (src/routes/tasks.js lines 85-137), inside
`session.withTransaction`: resolve the assignee, build and validate the new
task, insert it, and if it is assigned and not completed add its id to the
assignee's `pendingTasks`.  The transaction makes the outcome all-or-nothing:
an error leaves the pre-request store. -/
def taskPost (s : Store) (body : TaskBody) (freshId : String) (now : Nat) :
    Except ApiError (Store × Task) :=
  match resolveAssignee s body.assignedUser with
  | .error e => .error e
  | .ok (assignedUser, assignedUserName) =>
    let task : Task :=
      { id := freshId
        name := body.name.getD ""
        description := body.description.getD ""
        deadline := body.deadline.getD ""
        completed := body.completed
        assignedUser := assignedUser
        assignedUserName := assignedUserName
        dateCreated := now }
    if validateTaskDoc task then .ok (taskPostApply s task, task)
    else .error .validationError

/-- The net effect on one user document of the three conditional
`pendingTasks` maintenance writes of `taskRoute.put` (src/routes/tasks.js
lines 189-201), applied in source order: pull from the previous assignee
when it changed, `$addToSet` on the next assignee when not completed, and
on an unchanged assignee pull/add when the completed flag flipped. -/
def taskPutUserFn (prevA : String) (prevC : Bool) (nA : String) (nC : Bool)
    (tid : String) (u : User) : User :=
  let p1 := if prevA ≠ "" ∧ prevA ≠ nA ∧ u.id = prevA
            then u.pendingTasks.filter (fun x => x ≠ tid) else u.pendingTasks
  let p2 := if nA ≠ "" ∧ nC = false ∧ u.id = nA then addToSet p1 tid else p1
  let p3 := if prevA = nA ∧ nA ≠ "" ∧ u.id = nA then
              if prevC = false ∧ nC = true then p2.filter (fun x => x ≠ tid)
              else if prevC = true ∧ nC = false then addToSet p2 tid
              else p2
            else p2
  { u with pendingTasks := p3 }

/-- The store after `taskRoute.put` commits: the task document replaced,
every user document rewritten by `taskPutUserFn`. -/
def taskPutApply (s : Store) (prevA : String) (prevC : Bool) (upd : Task) : Store :=
  { users := s.users.map (taskPutUserFn prevA prevC upd.assignedUser upd.completed upd.id)
    tasks := s.tasks.map (fun r => if r.id = upd.id then upd else r) }

/-- PUT /api/tasks/:id (src/routes/tasks.js lines 158-219), inside
`session.withTransaction`: find the task, resolve the next assignee, replace
the mutable fields (id and `dateCreated` are untouched), save, then run the
three pendingTasks maintenance rules of lines 189-201. -/
def taskPut (s : Store) (tid : String) (body : TaskBody) :
    Except ApiError (Store × Task) :=
  match findTask s tid with
  | none => .error .notFound
  | some task =>
    match resolveAssignee s body.assignedUser with
    | .error e => .error e
    | .ok (nextAssignedUser, nextAssignedUserName) =>
      let updated : Task :=
        { task with
          name := body.name.getD ""
          description := body.description.getD ""
          deadline := body.deadline.getD ""
          completed := body.completed
          assignedUser := nextAssignedUser
          assignedUserName := nextAssignedUserName }
      if validateTaskDoc updated then
        .ok (taskPutApply s task.assignedUser task.completed updated, updated)
      else .error .validationError

/-- DELETE /api/tasks/:id (src/routes/tasks.js lines 222-248), inside
`session.withTransaction`: find the task, delete it, and if it was assigned
and not completed pull its id from the assignee's `pendingTasks`. -/
def taskDeleteApply (s : Store) (task : Task) : Store :=
  let s1 : Store := { s with tasks := s.tasks.filter (fun t => t.id ≠ task.id) }
  if task.assignedUser ≠ "" ∧ task.completed = false
  then pullPendingStore s1 task.assignedUser task.id else s1

def taskDelete (s : Store) (tid : String) : Except ApiError Store :=
  match findTask s tid with
  | none => .error .notFound
  | some task => .ok (taskDeleteApply s task)

/-- A primitive store write, as issued by the users.js handlers.  The
handlers in `src/unnamed/part_000` issue these sequentially, with no
transaction (no `session` / `withTransaction` appears in that file). -/
inductive Write
  | saveUser (u : User)
  | unassignTasks (ids : List String) (uid : String)
  | assignTasks (ids : List String) (uid : String) (uname : String)
  | unassignAllTasks (uid : String)
  | deleteUser (uid : String)
deriving DecidableEq, Repr

def applyWrite (s : Store) : Write → Store
  | .saveUser u => { s with users := s.users.map (fun v => if v.id = u.id then u else v) }
  | .unassignTasks ids uid =>
      { s with tasks := s.tasks.map (fun t =>
          if t.id ∈ ids ∧ t.assignedUser = uid then clearTask t else t) }
  | .assignTasks ids uid uname =>
      { s with tasks := s.tasks.map (fun t =>
          if t.id ∈ ids then { t with assignedUser := uid, assignedUserName := uname } else t) }
  | .unassignAllTasks uid =>
      { s with tasks := s.tasks.map (fun t =>
          if t.assignedUser = uid then clearTask t else t) }
  | .deleteUser uid => { s with users := s.users.filter (fun u => u.id ≠ uid) }

def runWrites (s : Store) (ws : List Write) : Store := ws.foldl applyWrite s

structure UserBody where
  name : Option String
  email : Option String
  pendingTasks : Option (List String)
deriving Repr

/-- JS falsiness of an optional string (`!name`): absent or empty. -/
def strFalsy : Option String → Bool
  | none => true
  | some s => s = ""

/-- The ids `userRoute.put` removes: in the old pending set, not in the new. -/
def removedIds (user : User) (body : UserBody) : List String :=
  (dedupFirst user.pendingTasks).filter
    (fun x => x ∉ dedupFirst (body.pendingTasks.getD []))

/-- The ids `userRoute.put` adds: in the new pending set, not in the old. -/
def addedIds (user : User) (body : UserBody) : List String :=
  (dedupFirst (body.pendingTasks.getD [])).filter
    (fun x => x ∉ dedupFirst user.pendingTasks)

/-- PUT /api/users/:id (src/unnamed/part_000 lines 106-164): the saved user
document and the ordered list of store writes the handler performs.  The
email-uniqueness rejection (`err.code === 11000`, caught at line 156) is
modelled from the spec's "email globally unique" — `models/user.js` is not
under `src/`. -/
def userPutWrites (s : Store) (uid : String) (body : UserBody) :
    Except ApiError (User × List Write) :=
  match findUser s uid with
  | none => .error .notFound
  | some user =>
    if strFalsy body.name || strFalsy body.email then .error .missingRequiredField
    else
      let n := body.name.getD ""
      let e := body.email.getD ""
      if ∃ v ∈ s.users, v.id ≠ user.id ∧ v.email = e then .error .uniquenessConflict
      else
        let newPending := dedupFirst (body.pendingTasks.getD [])
        let user' : User := { user with name := n, email := e, pendingTasks := newPending }
        let removed := removedIds user body
        let added := addedIds user body
        .ok (user',
          [Write.saveUser user']
            ++ (if removed ≠ [] then [Write.unassignTasks removed user.id] else [])
            ++ (if added ≠ [] then [Write.assignTasks added user.id user'.name] else []))

/-- The net effect of the two `Task.updateMany` calls of `userRoute.put`
(part_000 lines 134-149) on one task document: unassign if its id was
removed from the pending set and it is currently assigned to this user;
then assign to this user if its id was added to the set. -/
def userPutTaskFn (removed added : List String) (uid uname : String) (t : Task) : Task :=
  let t1 := if t.id ∈ removed ∧ t.assignedUser = uid then clearTask t else t
  if t1.id ∈ added then { t1 with assignedUser := uid, assignedUserName := uname } else t1

/-- PUT /api/users/:id, final state: all writes applied in order. -/
def userPut (s : Store) (uid : String) (body : UserBody) :
    Except ApiError (Store × User) :=
  match userPutWrites s uid body with
  | .error e => .error e
  | .ok (user', ws) => .ok (runWrites s ws, user')

/-- DELETE /api/users/:id (src/unnamed/part_000 lines 167-190): unassign all
tasks of this user, then delete the user — two sequential writes, no
transaction. -/
def userDeleteWrites (s : Store) (uid : String) : Except ApiError (List Write) :=
  match findUser s uid with
  | none => .error .notFound
  | some user => .ok [Write.unassignAllTasks user.id, Write.deleteUser user.id]

def userDelete (s : Store) (uid : String) : Except ApiError Store :=
  match userDeleteWrites s uid with
  | .error e => .error e
  | .ok ws => .ok (runWrites s ws)

/-! ## Query translator (the GET list endpoints) -/

/-- A list-endpoint query string.  `whereQ`/`sortQ`/`selectQ` model
`req.query.where` etc. after the JSON boundary: `none` = absent,
`some none` = present but malformed JSON, `some (some _)` = parsed.  The
filter is the store engine's predicate for the parsed `where`. -/
structure ListQuery (α : Type) where
  whereQ : Option (Option (α → Bool)) := none
  sortQ : Option Bool := none
  selectQ : Option Bool := none
  skipQ : Option String := none
  limitQ : Option String := none
  countQ : Option String := none

/-- `skip` handling, identical in both route files: if the parameter is
present (and truthy) and `parseInt` is not NaN the value is applied — even
when negative. -/
def skipDescriptor (q : Option String) : Option Int :=
  match q with
  | none => none
  | some str =>
    if str = "" then none
    else
      match parseIntJS str with
      | none => none
      | some n => some n

/-- `limit` handling: a present (truthy) parameter is applied only when it
parses to a positive number — otherwise **no** limit is applied at all; the
default applies only when the parameter is absent/falsy.  `dflt` is
`some 100` for /tasks and `none` for /users. -/
def limitDescriptor (dflt : Option Int) (q : Option String) : Option Int :=
  match q with
  | none => dflt
  | some str =>
    if str = "" then dflt
    else
      match parseIntJS str with
      | none => none
      | some n => if n > 0 then some n else none

def tasksLimitDescriptor : Option String → Option Int := limitDescriptor (some 100)

def usersLimitDescriptor : Option String → Option Int := limitDescriptor none

/-- The store engine's execution of the translated query descriptor. -/
def execQuery {α : Type} (docs : List α) (p : α → Bool) (skip limit : Option Int) : List α :=
  let l := docs.filter p
  let l := match skip with | some n => l.drop n.toNat | none => l
  match limit with | some n => l.take n.toNat | none => l

inductive ListResult (α : Type)
  | records (l : List α)
  | count (n : Nat)
deriving DecidableEq, Repr

/-- The shared GET-collection control flow (tasks.js lines 44-82, users
lines 27-62): parse `where`; in count mode only the filter applies and
sort/select are never parsed; otherwise parse sort/select, then translate
skip/limit. -/
def listGet {α : Type} (docs : List α) (q : ListQuery α) (dfltLimit : Option Int) :
    Except ApiError (ListResult α) :=
  match q.whereQ with
  | some none => .error (.invalidQueryParameter "where")
  | w =>
    let p := (w.getD none).getD (fun _ => true)
    if q.countQ = some "true" then .ok (.count (docs.filter p).length)
    else if q.sortQ = some false then .error (.invalidQueryParameter "sort")
    else if q.selectQ = some false then .error (.invalidQueryParameter "select")
    else .ok (.records (execQuery docs p (skipDescriptor q.skipQ) (limitDescriptor dfltLimit q.limitQ)))

def tasksGet (s : Store) (q : ListQuery Task) : Except ApiError (ListResult Task) :=
  listGet s.tasks q (some 100)

def usersGet (s : Store) (q : ListQuery User) : Except ApiError (ListResult User) :=
  listGet s.users q none

/-! ## Response envelopes -/

inductive RespBody
  | envelope (message : String)
  | empty
deriving DecidableEq, Repr

def RespBody.isEnvelope : RespBody → Bool
  | .envelope _ => true
  | .empty => false

structure Response where
  status : Nat
  body : RespBody
deriving DecidableEq, Repr

def errParamMsg : ApiError → String
  | .invalidQueryParameter p => "Invalid JSON in " ++ p
  | _ => ""

/-- GET /api/tasks response (tasks.js lines 77-81): parse failures carry
status 400 and their message; success is `{message: 'OK', data}`. -/
def tasksGetResponse (s : Store) (q : ListQuery Task) : Response :=
  match tasksGet s q with
  | .ok _ => ⟨200, .envelope "OK"⟩
  | .error (.invalidQueryParameter p) => ⟨400, .envelope ("Invalid JSON in " ++ p)⟩
  | .error _ => ⟨500, .envelope "Error getting tasks"⟩

def usersGetResponse (s : Store) (q : ListQuery User) : Response :=
  match usersGet s q with
  | .ok _ => ⟨200, .envelope "OK"⟩
  | .error (.invalidQueryParameter p) => ⟨400, .envelope ("Invalid JSON in " ++ p)⟩
  | .error _ => ⟨500, .envelope "Error getting users"⟩

def tasksPostResponse (s : Store) (body : TaskBody) (freshId : String) (now : Nat) :
    Store × Response :=
  match taskPost s body freshId now with
  | .ok (s', _) => (s', ⟨201, .envelope "Task created successfully"⟩)
  | .error .invalidReference => (s, ⟨400, .envelope "assignedUser must be a valid ObjectId"⟩)
  | .error .referenceNotFound => (s, ⟨400, .envelope "assignedUser not found"⟩)
  | .error .validationError =>
      (s, ⟨400, .envelope "Invalid task data: name and deadline are required"⟩)
  | .error _ => (s, ⟨500, .envelope "Error creating task"⟩)

/-- GET /api/tasks/:id (tasks.js lines 140-154): a malformed or unmatched id
is 404; a bad `select` JSON is caught by the generic catch (500). -/
def taskGetResponse (s : Store) (tid : String) (selectQ : Option Bool) : Response :=
  if selectQ = some false then ⟨500, .envelope "Error getting task"⟩
  else
    match findTask s tid with
    | none => ⟨404, .envelope "Task not found"⟩
    | some _ => ⟨200, .envelope "OK"⟩

def taskPutResponse (s : Store) (tid : String) (body : TaskBody) : Store × Response :=
  match taskPut s tid body with
  | .ok (s', _) => (s', ⟨200, .envelope "Task updated successfully"⟩)
  | .error .notFound => (s, ⟨404, .envelope "Task not found"⟩)
  | .error .invalidReference => (s, ⟨400, .envelope "assignedUser must be a valid ObjectId"⟩)
  | .error .referenceNotFound => (s, ⟨400, .envelope "assignedUser not found"⟩)
  | .error .validationError =>
      (s, ⟨400, .envelope "Invalid task data: name and deadline are required"⟩)
  | .error _ => (s, ⟨500, .envelope "Error updating task"⟩)

/-- DELETE /api/tasks/:id (tasks.js lines 222-248): on success the handler
sends `res.status(204).send()` — **no body** (line 238). -/
def taskDeleteResponse (s : Store) (tid : String) : Store × Response :=
  match taskDelete s tid with
  | .ok s' => (s', ⟨204, .empty⟩)
  | .error .notFound => (s, ⟨404, .envelope "Task not found"⟩)
  | .error _ => (s, ⟨500, .envelope "Error deleting task"⟩)

/-- POST /api/users (part_000 lines 65-85).  Email uniqueness is modelled
from the spec ("email globally unique"); `models/user.js` is not under
`src/`. -/
def usersPost (s : Store) (body : UserBody) (freshId : String) (now : Nat) :
    Except ApiError (Store × User) :=
  if strFalsy body.name || strFalsy body.email then .error .missingRequiredField
  else
    let e := body.email.getD ""
    if ∃ v ∈ s.users, v.email = e then .error .uniquenessConflict
    else
      let user : User :=
        { id := freshId, name := body.name.getD "", email := e
          pendingTasks := body.pendingTasks.getD [], dateCreated := now }
      .ok ({ s with users := s.users ++ [user] }, user)

def usersPostResponse (s : Store) (body : UserBody) (freshId : String) (now : Nat) :
    Store × Response :=
  match usersPost s body freshId now with
  | .ok (s', _) => (s', ⟨201, .envelope "User created successfully"⟩)
  | .error .missingRequiredField => (s, ⟨400, .envelope "name and email are required"⟩)
  | .error .uniquenessConflict => (s, ⟨409, .envelope "User with this email already exists"⟩)
  | .error _ => (s, ⟨500, .envelope "Error creating user"⟩)

def userGetResponse (s : Store) (uid : String) (selectQ : Option Bool) : Response :=
  if selectQ = some false then ⟨500, .envelope "Error getting user"⟩
  else
    match findUser s uid with
    | none => ⟨404, .envelope "User not found"⟩
    | some _ => ⟨200, .envelope "OK"⟩

def userPutResponse (s : Store) (uid : String) (body : UserBody) : Store × Response :=
  match userPut s uid body with
  | .ok (s', _) => (s', ⟨200, .envelope "User updated successfully"⟩)
  | .error .notFound => (s, ⟨404, .envelope "User not found"⟩)
  | .error .missingRequiredField => (s, ⟨400, .envelope "name and email are required for PUT"⟩)
  | .error .uniquenessConflict => (s, ⟨409, .envelope "User with this email already exists"⟩)
  | .error _ => (s, ⟨500, .envelope "Error updating user"⟩)

def userDeleteResponse (s : Store) (uid : String) : Store × Response :=
  match userDelete s uid with
  | .ok s' => (s', ⟨200, .envelope "User deleted successfully"⟩)
  | .error .notFound => (s, ⟨404, .envelope "User not found"⟩)
  | .error _ => (s, ⟨500, .envelope "Error deleting user"⟩)

deriving instance DecidableEq for Except

instance (s : Store) : Decidable (Invariant s) := by unfold Invariant; infer_instance

instance (s : Store) : Decidable (StoreWF s) := by unfold StoreWF; infer_instance

instance (s : Store) (fid : String) : Decidable (FreshId s fid) := by
  unfold FreshId; infer_instance

/-! ## Concrete stores and requests used by witnesses and counterexamples -/

def frameTask0 : Task := ⟨"t1", "a", "", "d", false, "", "unassigned", 5⟩
def frameStore : Store := ⟨[], [frameTask0]⟩
def frameBody : TaskBody := ⟨some "b", none, some "d2", true, none, none⟩
def frameUpd : Task := ⟨"t1", "b", "", "d2", true, "", "unassigned", 5⟩
def frameStore' : Store := ⟨[], [frameUpd]⟩

def refUser : User := ⟨"aaaaaaaaaaaa", "Alice", "al@x", [], 0⟩
def refStore : Store := ⟨[refUser], []⟩
def refBody : TaskBody := ⟨some "T", none, some "d", false, some "aaaaaaaaaaaa", some "Mallory"⟩
def refTask : Task := ⟨"t9", "T", "", "d", false, "aaaaaaaaaaaa", "Alice", 7⟩
def refStore' : Store := ⟨[⟨"aaaaaaaaaaaa", "Alice", "al@x", ["t9"], 0⟩], [refTask]⟩

def reU1 : User := ⟨"uuuuuuuuuuu1", "U1", "e1", ["t1"], 0⟩
def reU2 : User := ⟨"uuuuuuuuuuu2", "U2", "e2", [], 0⟩
def reT1 : Task := ⟨"t1", "T", "", "d", false, "uuuuuuuuuuu1", "U1", 0⟩
def reStore : Store := ⟨[reU1, reU2], [reT1]⟩
def reBody : TaskBody := ⟨some "T", none, some "d", false, some "uuuuuuuuuuu2", none⟩
def reUpd : Task := ⟨"t1", "T", "", "d", false, "uuuuuuuuuuu2", "U2", 0⟩
def reStore' : Store :=
  ⟨[⟨"uuuuuuuuuuu1", "U1", "e1", [], 0⟩, ⟨"uuuuuuuuuuu2", "U2", "e2", ["t1"], 0⟩], [reUpd]⟩

def swapU : User := ⟨"u1", "A", "a", ["t1", "t2"], 0⟩
def swapT1 : Task := ⟨"t1", "x", "", "d", false, "u1", "A", 0⟩
def swapT2 : Task := ⟨"t2", "x", "", "d", false, "u1", "A", 0⟩
def swapT3 : Task := ⟨"t3", "x", "", "d", false, "", "unassigned", 0⟩
def swapStore : Store := ⟨[swapU], [swapT1, swapT2, swapT3]⟩
def swapBody : UserBody := ⟨some "A", some "a", some ["t2", "t3"]⟩
def swapUser' : User := ⟨"u1", "A", "a", ["t2", "t3"], 0⟩
def swapStore' : Store :=
  ⟨[swapUser'],
   [⟨"t1", "x", "", "d", false, "", "unassigned", 0⟩, swapT2,
    ⟨"t3", "x", "", "d", false, "u1", "A", 0⟩]⟩

def delU : User := ⟨"u1", "A", "a", ["t1"], 0⟩
def delT1 : Task := ⟨"t1", "x", "", "d", false, "u1", "A", 0⟩
def delT2 : Task := ⟨"t2", "x", "", "d", true, "u1", "A", 0⟩
def delStore : Store := ⟨[delU], [delT1, delT2]⟩
def delStore' : Store :=
  ⟨[], [⟨"t1", "x", "", "d", false, "", "unassigned", 0⟩,
        ⟨"t2", "x", "", "d", true, "", "unassigned", 0⟩]⟩
def delStore2 : Store := ⟨[⟨"u1", "A", "a", [], 0⟩], [delT2]⟩

def atomU : User := ⟨"u1", "A", "a", [], 0⟩
def atomT : Task := ⟨"t1", "T", "", "d", false, "", "unassigned", 0⟩
def atomStore : Store := ⟨[atomU], [atomT]⟩
def atomBody : UserBody := ⟨some "B2", some "a", some ["t1"]⟩
def atomUser' : User := ⟨"u1", "B2", "a", ["t1"], 0⟩
def atomWrites : List Write := [Write.saveUser atomUser', Write.assignTasks ["t1"] "u1" "B2"]

def brkU : User := ⟨"u1", "A", "a", [], 0⟩
def brkT : Task := ⟨"t1", "T", "", "d", true, "", "unassigned", 0⟩
def brkStore : Store := ⟨[brkU], [brkT]⟩
def brkBody : UserBody := ⟨some "A", some "a", some ["t1"]⟩
def brkUser' : User := ⟨"u1", "A", "a", ["t1"], 0⟩
def brkStore' : Store := ⟨[brkUser'], [⟨"t1", "T", "", "d", true, "u1", "A", 0⟩]⟩

def invU : User := ⟨"u1", "A", "a", ["t1"], 0⟩
def invT : Task := ⟨"t1", "T", "", "d", false, "u1", "A", 0⟩
def invStore : Store := ⟨[invU], [invT]⟩
def invStore' : Store := ⟨[⟨"u1", "A", "a", [], 0⟩], []⟩

def q9U1 : User := ⟨"u1", "A", "a", [], 0⟩
def q9U2 : User := ⟨"u2", "B", "b", [], 0⟩
def q9T1 : Task := ⟨"t1", "x", "", "d", false, "", "unassigned", 0⟩
def q9Store : Store := ⟨[q9U1, q9U2], [q9T1]⟩
def q9TasksQuery : ListQuery Task := {}
def q9UsersQuery : ListQuery User := {}

/-! ## Basic lemmas -/

theorem mem_addToSet {l : List String} {a b : String} :
    a ∈ addToSet l b ↔ a = b ∨ a ∈ l := by
  unfold addToSet
  by_cases h : b ∈ l
  · simp only [if_pos h]
    constructor
    · exact Or.inr
    · rintro (rfl | h2) <;> [exact h; exact h2]
  · simp [if_neg h, List.mem_append, or_comm]

theorem nodup_addToSet {l : List String} {b : String} (h : l.Nodup) :
    (addToSet l b).Nodup := by
  unfold addToSet
  by_cases hb : b ∈ l
  · simpa [hb]
  · simp [hb, List.nodup_append, h]

theorem mem_dedupAux {a : String} :
    ∀ (l seen : List String), a ∈ dedupAux seen l ↔ a ∈ l ∧ a ∉ seen
  | [], seen => by simp [dedupAux]
  | x :: xs, seen => by
    unfold dedupAux
    by_cases hx : x ∈ seen
    · rw [if_pos hx, mem_dedupAux xs seen]
      constructor
      · rintro ⟨h1, h2⟩; exact ⟨List.mem_cons_of_mem _ h1, h2⟩
      · rintro ⟨h1, h2⟩
        rcases List.mem_cons.1 h1 with rfl | h1
        · exact absurd hx h2
        · exact ⟨h1, h2⟩
    · rw [if_neg hx]
      constructor
      · intro h1
        rcases List.mem_cons.1 h1 with rfl | h1
        · exact ⟨List.mem_cons_self _ _, hx⟩
        · rw [mem_dedupAux xs (x :: seen)] at h1
          exact ⟨List.mem_cons_of_mem _ h1.1, fun hc => h1.2 (List.mem_cons_of_mem _ hc)⟩
      · rintro ⟨h1, h2⟩
        rcases List.mem_cons.1 h1 with rfl | h1
        · exact List.mem_cons_self _ _
        · by_cases hax : a = x
          · subst hax; exact List.mem_cons_self _ _
          · refine List.mem_cons_of_mem _ ?_
            rw [mem_dedupAux xs (x :: seen)]
            exact ⟨h1, fun hc => (List.mem_cons.1 hc).elim hax h2⟩

theorem mem_dedupFirst {a : String} {l : List String} : a ∈ dedupFirst l ↔ a ∈ l := by
  simp [dedupFirst, mem_dedupAux]

theorem findUser_some {s : Store} {uid : String} {u : User} (h : findUser s uid = some u) :
    u ∈ s.users ∧ u.id = uid := by
  unfold findUser at h
  refine ⟨List.mem_of_find?_eq_some h, ?_⟩
  simpa using List.find?_some h

theorem findTask_some {s : Store} {tid : String} {t : Task} (h : findTask s tid = some t) :
    t ∈ s.tasks ∧ t.id = tid := by
  unfold findTask at h
  refine ⟨List.mem_of_find?_eq_some h, ?_⟩
  simpa using List.find?_some h

/-! ## Per-document effect of the taskPut maintenance writes -/

theorem taskPutUserFn_id (pA : String) (pC : Bool) (nA : String) (nC : Bool)
    (tid : String) (u : User) : (taskPutUserFn pA pC nA nC tid u).id = u.id := rfl

theorem mem_taskPutUserFn_self {pA : String} {pC : Bool} {nA : String} {nC : Bool}
    {tid : String} {u : User} :
    tid ∈ (taskPutUserFn pA pC nA nC tid u).pendingTasks ↔
      (if u.id = nA ∧ nA ≠ "" ∧ nC = false then True
       else if u.id = nA ∧ nA ≠ "" ∧ pA = nA ∧ pC = false ∧ nC = true then False
       else if u.id = pA ∧ pA ≠ "" ∧ pA ≠ nA then False
       else tid ∈ u.pendingTasks) := by
  by_cases h1 : u.id = nA <;> by_cases h2 : nA = "" <;> by_cases h3 : nC = false <;>
    by_cases h4 : u.id = pA <;> by_cases h5 : pA = "" <;> by_cases h6 : pA = nA <;>
    by_cases h7 : pC = false <;>
    simp_all [taskPutUserFn, mem_addToSet, List.mem_filter]

theorem mem_taskPutUserFn_other {pA : String} {pC : Bool} {nA : String} {nC : Bool}
    {tid : String} {u : User} {x : String} (hx : x ≠ tid) :
    x ∈ (taskPutUserFn pA pC nA nC tid u).pendingTasks ↔ x ∈ u.pendingTasks := by
  unfold taskPutUserFn
  split_ifs <;> simp [mem_addToSet, List.mem_filter, hx]

theorem nodup_taskPutUserFn {pA : String} {pC : Bool} {nA : String} {nC : Bool}
    {tid : String} {u : User} (h : u.pendingTasks.Nodup) :
    (taskPutUserFn pA pC nA nC tid u).pendingTasks.Nodup := by
  unfold taskPutUserFn
  split_ifs <;>
    repeat (first | exact h | apply nodup_addToSet | apply List.Nodup.filter)

/-! ## Success-case characterizations of the five mutations -/

theorem taskPost_ok {s s' : Store} {body : TaskBody} {fid : String} {now : Nat} {t : Task}
    (h : taskPost s body fid now = .ok (s', t)) :
    ∃ aU aUN, resolveAssignee s body.assignedUser = .ok (aU, aUN) ∧
      t = { id := fid, name := body.name.getD "", description := body.description.getD "",
            deadline := body.deadline.getD "", completed := body.completed,
            assignedUser := aU, assignedUserName := aUN, dateCreated := now } ∧
      validateTaskDoc t = true ∧ s' = taskPostApply s t := by
  unfold taskPost at h
  cases hr : resolveAssignee s body.assignedUser with
  | error e => rw [hr] at h; simp at h
  | ok pr =>
    obtain ⟨aU, aUN⟩ := pr
    rw [hr] at h
    dsimp only at h
    split at h
    · simp only [Except.ok.injEq, Prod.mk.injEq] at h
      exact ⟨aU, aUN, rfl, h.2.symm, by rw [← h.2]; assumption, by rw [← h.1, ← h.2]⟩
    · simp at h

theorem taskPut_ok {s s' : Store} {tid : String} {body : TaskBody} {upd : Task}
    (h : taskPut s tid body = .ok (s', upd)) :
    ∃ t0 nA nAN, findTask s tid = some t0 ∧
      resolveAssignee s body.assignedUser = .ok (nA, nAN) ∧
      upd = { t0 with
              name := body.name.getD "", description := body.description.getD "",
              deadline := body.deadline.getD "", completed := body.completed,
              assignedUser := nA, assignedUserName := nAN } ∧
      validateTaskDoc upd = true ∧
      s' = taskPutApply s t0.assignedUser t0.completed upd := by
  unfold taskPut at h
  cases hf : findTask s tid with
  | none => rw [hf] at h; simp at h
  | some task =>
    rw [hf] at h
    cases hr : resolveAssignee s body.assignedUser with
    | error e => rw [hr] at h; simp at h
    | ok pr =>
      obtain ⟨nA, nAN⟩ := pr
      rw [hr] at h
      dsimp only at h
      split at h
      · simp only [Except.ok.injEq, Prod.mk.injEq] at h
        exact ⟨task, nA, nAN, rfl, rfl, h.2.symm, by rw [← h.2]; assumption,
          by rw [← h.1, ← h.2]⟩
      · simp at h

theorem taskDelete_ok {s s' : Store} {tid : String} (h : taskDelete s tid = .ok s') :
    ∃ t0, findTask s tid = some t0 ∧ s' = taskDeleteApply s t0 := by
  unfold taskDelete at h
  cases hf : findTask s tid with
  | none => rw [hf] at h; simp at h
  | some task =>
    rw [hf] at h
    simp only [Except.ok.injEq] at h
    exact ⟨task, rfl, h.symm⟩

theorem userPut_ok {s s' : Store} {uid : String} {body : UserBody} {u' : User}
    (h : userPut s uid body = .ok (s', u')) :
    ∃ user, findUser s uid = some user ∧
      strFalsy body.name = false ∧ strFalsy body.email = false ∧
      u' = { user with
             name := body.name.getD "", email := body.email.getD "",
             pendingTasks := dedupFirst (body.pendingTasks.getD []) } ∧
      s'.users = s.users.map (fun v => if v.id = user.id then u' else v) ∧
      s'.tasks = s.tasks.map (userPutTaskFn (removedIds user body) (addedIds user body)
                   user.id (body.name.getD "")) := by
  unfold userPut at h
  cases hw : userPutWrites s uid body with
  | error e => rw [hw] at h; simp at h
  | ok pr =>
    obtain ⟨u'', ws⟩ := pr
    rw [hw] at h
    simp only [Except.ok.injEq, Prod.mk.injEq] at h
    obtain ⟨hstore, hu⟩ := h
    subst hu
    unfold userPutWrites at hw
    cases hf : findUser s uid with
    | none => rw [hf] at hw; simp at hw
    | some user =>
      rw [hf] at hw
      dsimp only at hw
      by_cases hne : strFalsy body.name || strFalsy body.email
      · rw [if_pos hne] at hw; simp at hw
      · rw [if_neg hne] at hw
        have hne2 := hne
        simp only [Bool.or_eq_true, not_or, Bool.not_eq_true] at hne2
        obtain ⟨hn, he⟩ := hne2
        split at hw
        · simp at hw
        · simp only [Except.ok.injEq, Prod.mk.injEq] at hw
          obtain ⟨huser, hws⟩ := hw
          subst hws
          subst huser
          refine ⟨user, rfl, hn, he, rfl, ?_, ?_⟩
          · rw [← hstore]
            by_cases hrem : removedIds user body ≠ [] <;>
              by_cases hadd : addedIds user body ≠ [] <;>
              simp [hrem, hadd, runWrites, applyWrite]
          · rw [← hstore]
            by_cases hrem : removedIds user body ≠ [] <;>
              by_cases hadd : addedIds user body ≠ [] <;>
              simp only [hrem, hadd, if_pos, if_neg, ne_eq, not_true_eq_false,
                not_false_eq_true, not_not, List.append_nil, List.nil_append,
                runWrites, List.foldl_cons, List.foldl_nil, List.foldl_append,
                applyWrite, List.map_map]
            · rfl
            · rw [not_not] at hadd
              refine List.map_congr_left fun t _ => ?_
              simp [userPutTaskFn, hadd]
            · rw [not_not] at hrem
              refine List.map_congr_left fun t _ => ?_
              simp [userPutTaskFn, hrem, Function.comp]
            · rw [not_not] at hrem hadd
              have hid : ∀ t, userPutTaskFn (removedIds user body) (addedIds user body)
                  user.id (body.name.getD "") t = t := by
                intro t; simp [userPutTaskFn, hrem, hadd]
              simp only [show (userPutTaskFn (removedIds user body) (addedIds user body)
                  user.id (body.name.getD "")) = id from funext hid, List.map_id]

theorem userDelete_ok {s s' : Store} {uid : String} (h : userDelete s uid = .ok s') :
    ∃ user, findUser s uid = some user ∧
      s'.users = s.users.filter (fun u => u.id ≠ user.id) ∧
      s'.tasks = s.tasks.map (fun t => if t.assignedUser = user.id then clearTask t else t) := by
  unfold userDelete userDeleteWrites at h
  cases hf : findUser s uid with
  | none => rw [hf] at h; simp at h
  | some user =>
    rw [hf] at h
    simp only [Except.ok.injEq] at h
    exact ⟨user, rfl, by rw [← h]; rfl, by rw [← h]; rfl⟩

theorem ensureUserExists_ok_some {s : Store} {str : String} {u : User}
    (h : ensureUserExists s str = .ok (some u)) : findUser s str = some u := by
  unfold ensureUserExists at h
  split at h
  · simp at h
  · split at h
    · simp at h
    · cases hfu : findUser s str with
      | none => rw [hfu] at h; simp at h
      | some v =>
        rw [hfu] at h
        simp only [Except.ok.injEq, Option.some.injEq] at h
        rw [← h]

theorem resolveAssignee_ok {s : Store} {raw : Option String} {aU aUN : String}
    (h : resolveAssignee s raw = .ok (aU, aUN)) (hne : aU ≠ "") :
    ∃ u, u ∈ s.users ∧ u.id = aU ∧ aUN = u.name ∧ findUser s aU = some u := by
  cases raw with
  | none =>
    simp only [resolveAssignee, Except.ok.injEq, Prod.mk.injEq] at h
    exact absurd h.1.symm hne
  | some str =>
    simp only [resolveAssignee] at h
    split at h
    · split at h
      · simp at h
      · simp only [Except.ok.injEq, Prod.mk.injEq] at h
        exact absurd h.1.symm hne
      · rename_i u heq
        simp only [Except.ok.injEq, Prod.mk.injEq] at h
        obtain ⟨h1, h2⟩ := h
        subst h1
        subst h2
        have hfu := ensureUserExists_ok_some heq
        have hid := (findUser_some hfu).2
        exact ⟨u, (findUser_some hfu).1, rfl, rfl, by rw [hid]; exact hfu⟩
    · simp only [Except.ok.injEq, Prod.mk.injEq] at h
      exact absurd h.1.symm hne

theorem listGet_whereBad {α : Type} (docs : List α) (q : ListQuery α) (dflt : Option Int)
    (hw : q.whereQ = some none) :
    listGet docs q dflt = .error (.invalidQueryParameter "where") := by
  simp [listGet, hw]

theorem listGet_run {α : Type} (docs : List α) (q : ListQuery α) (dflt : Option Int)
    (p : α → Bool)
    (hw : q.whereQ = none ∧ p = (fun _ => true) ∨ q.whereQ = some (some p)) :
    listGet docs q dflt =
      (if q.countQ = some "true" then .ok (.count (docs.filter p).length)
       else if q.sortQ = some false then .error (.invalidQueryParameter "sort")
       else if q.selectQ = some false then .error (.invalidQueryParameter "select")
       else .ok (.records (execQuery docs p (skipDescriptor q.skipQ)
         (limitDescriptor dflt q.limitQ)))) := by
  rcases hw with ⟨hw, rfl⟩ | hw <;> simp [listGet, hw]

/-! ## Claim theorems -/

/-- C10: for every successful Task replacement (PUT /tasks/:id), the Task's
identifier and `dateCreated` are unchanged, and only `name`, `description`,
`deadline`, `completed`, `assignedUser` and `assignedUserName` are replaced
from the request body (`assignedUser`/`assignedUserName` through the
assignee resolution). -/
theorem C10_taskPut_frame {s s' : Store} {tid : String} {body : TaskBody} {upd t0 : Task}
    (hfind : findTask s tid = some t0)
    (h : taskPut s tid body = .ok (s', upd)) :
    upd.id = t0.id ∧ upd.dateCreated = t0.dateCreated ∧
    upd.name = body.name.getD "" ∧ upd.description = body.description.getD "" ∧
    upd.deadline = body.deadline.getD "" ∧ upd.completed = body.completed ∧
    (∃ nA nAN, resolveAssignee s body.assignedUser = .ok (nA, nAN) ∧
      upd.assignedUser = nA ∧ upd.assignedUserName = nAN) ∧
    s'.tasks = s.tasks.map (fun r => if r.id = t0.id then upd else r) := by
  obtain ⟨t1, nA, nAN, hf', hres, hupd, hval, hs'⟩ := taskPut_ok h
  rw [hfind] at hf'
  injection hf' with hf'
  subst hf'
  subst hupd
  subst hs'
  exact ⟨rfl, rfl, rfl, rfl, rfl, rfl, ⟨nA, nAN, hres, rfl, rfl⟩, rfl⟩

/-- Witness for C10: a concrete successful replacement. -/
theorem C10_taskPut_frame_witness :
    frameUpd.id = frameTask0.id ∧ frameUpd.dateCreated = frameTask0.dateCreated ∧
    frameUpd.name = frameBody.name.getD "" := by
  have h := @C10_taskPut_frame frameStore frameStore' "t1" frameBody frameUpd frameTask0
      (by decide) (by decide)
  exact ⟨h.1, h.2.1, h.2.2.1⟩

/-- C6: assignee-identifier resolution — empty identifier is no assignee and
no error; non-empty structurally invalid identifier is an InvalidReference
(400); structurally valid but unmatched identifier is a ReferenceNotFound
(400); on success `assignedUserName` is the store's current name for that
user and the client-supplied `assignedUserName` is ignored. -/
theorem C6_assignee_resolution :
    (∀ s : Store, ensureUserExists s "" = .ok none) ∧
    (∀ (s : Store) (str : String), str ≠ "" → isValidObjectId str = false →
      ensureUserExists s str = .error .invalidReference) ∧
    (∀ (s : Store) (str : String), isValidObjectId str = true → findUser s str = none →
      ensureUserExists s str = .error .referenceNotFound) ∧
    (∀ (s : Store) (str : String) (u : User), isValidObjectId str = true →
      findUser s str = some u → ensureUserExists s str = .ok (some u)) ∧
    (∀ (s : Store) (body : TaskBody) (fid : String) (now : Nat) (s' : Store) (t : Task),
      taskPost s body fid now = .ok (s', t) → t.assignedUser ≠ "" →
      ∃ u, findUser s t.assignedUser = some u ∧ t.assignedUserName = u.name) ∧
    (∀ (s : Store) (body : TaskBody) (fid : String) (now : Nat) (x : Option String),
      taskPost s { body with assignedUserName := x } fid now = taskPost s body fid now) ∧
    (∀ (s : Store) (body : TaskBody) (fid : String) (now : Nat),
      taskPost s body fid now = .error .invalidReference →
      (tasksPostResponse s body fid now).2.status = 400) ∧
    (∀ (s : Store) (body : TaskBody) (fid : String) (now : Nat),
      taskPost s body fid now = .error .referenceNotFound →
      (tasksPostResponse s body fid now).2.status = 400) := by
  refine ⟨fun s => by simp [ensureUserExists],
          fun s str h1 h2 => by simp [ensureUserExists, h1, h2],
          fun s str hv hf => ?_,
          fun s str u hv hf => ?_,
          fun s body fid now s' t h hne => ?_,
          fun s body fid now x => by cases body; rfl,
          fun s body fid now h => by simp [tasksPostResponse, h],
          fun s body fid now h => by simp [tasksPostResponse, h]⟩
  · have hne : str ≠ "" := by
      intro he; subst he; exact absurd hv (by decide)
    simp [ensureUserExists, hne, hv, hf]
  · have hne : str ≠ "" := by
      intro he; subst he; exact absurd hv (by decide)
    simp [ensureUserExists, hne, hv, hf]
  · obtain ⟨aU, aUN, hres, ht, hval, hs'⟩ := taskPost_ok h
    subst ht
    dsimp only at hne ⊢
    obtain ⟨u, hmem, hid, hname, hfind⟩ := resolveAssignee_ok hres hne
    exact ⟨u, hfind, hname⟩

/-- Witness for C6: concrete resolutions of each kind, on a store with one
user whose id is `"aaaaaaaaaaaa"`. -/
theorem C6_assignee_resolution_witness :
    ensureUserExists refStore "zz" = Except.error ApiError.invalidReference ∧
    ensureUserExists refStore "bbbbbbbbbbbb" = Except.error ApiError.referenceNotFound ∧
    ensureUserExists refStore "aaaaaaaaaaaa" = Except.ok (some refUser) ∧
    refTask.assignedUserName = refUser.name := by
  refine ⟨C6_assignee_resolution.2.1 refStore "zz" (by decide) (by decide),
          C6_assignee_resolution.2.2.1 refStore "bbbbbbbbbbbb" (by decide) (by decide),
          C6_assignee_resolution.2.2.2.1 refStore "aaaaaaaaaaaa" refUser (by decide) (by decide),
          ?_⟩
  obtain ⟨u, hu1, hu2⟩ := C6_assignee_resolution.2.2.2.2.1 refStore refBody "t9" 7
    refStore' refTask (by decide) (by decide)
  have he : findUser refStore refTask.assignedUser = some refUser := by decide
  rw [he] at hu1
  injection hu1 with hu1
  subst hu1
  exact hu2

/-- C3: on Task replacement the pendingTasks maintenance follows the three
before/after rules — the id is removed from a changed previous assignee,
added to a next assignee of a non-completed task, and on an unchanged
assignee follows the completed-flag flip — with set semantics (`$addToSet` /
`$pull`): no duplicates are introduced and other ids are untouched. -/
theorem C3_taskPut_pending_rules {s s' : Store} {tid : String} {body : TaskBody}
    {upd t0 : Task} (hfind : findTask s tid = some t0)
    (h : taskPut s tid body = .ok (s', upd)) :
    s'.users = s.users.map
      (taskPutUserFn t0.assignedUser t0.completed upd.assignedUser upd.completed upd.id) ∧
    ∀ u ∈ s.users, ∀ u',
      u' = taskPutUserFn t0.assignedUser t0.completed upd.assignedUser upd.completed upd.id u →
      ((u.id = t0.assignedUser ∧ t0.assignedUser ≠ "" ∧ t0.assignedUser ≠ upd.assignedUser) →
        upd.id ∉ u'.pendingTasks) ∧
      ((u.id = upd.assignedUser ∧ upd.assignedUser ≠ "" ∧ upd.completed = false) →
        upd.id ∈ u'.pendingTasks) ∧
      ((u.id = upd.assignedUser ∧ upd.assignedUser ≠ "" ∧ t0.assignedUser = upd.assignedUser ∧
          t0.completed = false ∧ upd.completed = true) →
        upd.id ∉ u'.pendingTasks) ∧
      ((u.id = upd.assignedUser ∧ upd.assignedUser ≠ "" ∧ t0.assignedUser = upd.assignedUser ∧
          t0.completed = true ∧ upd.completed = false) →
        upd.id ∈ u'.pendingTasks) ∧
      (∀ x, x ≠ upd.id → (x ∈ u'.pendingTasks ↔ x ∈ u.pendingTasks)) ∧
      (u.pendingTasks.Nodup → u'.pendingTasks.Nodup) := by
  obtain ⟨t1, nA, nAN, hf', hres, hupd, hval, hs'⟩ := taskPut_ok h
  rw [hfind] at hf'
  injection hf' with hf'
  subst hf'
  subst hs'
  refine ⟨rfl, fun u hu u' hu'eq => ?_⟩
  subst hu'eq
  refine ⟨?_, ?_, ?_, ?_, fun x hx => mem_taskPutUserFn_other hx, nodup_taskPutUserFn⟩
  · rintro ⟨h1, h2, h3⟩
    rw [mem_taskPutUserFn_self]
    simp [h1, h2, h3]
  · rintro ⟨h1, h2, h3⟩
    rw [mem_taskPutUserFn_self]
    simp [h1, h2, h3]
  · rintro ⟨h1, h2, h3, h4, h5⟩
    rw [mem_taskPutUserFn_self]
    simp [h1, h2, h3, h4, h5]
  · rintro ⟨h1, h2, h3, h4, h5⟩
    rw [mem_taskPutUserFn_self]
    simp [h1, h2, h3, h4, h5]

/-- Witness for C3: reassigning the only task from U1 to U2 removes it from
U1's pendingTasks and adds it to U2's. -/
theorem C3_taskPut_pending_rules_witness :
    reUpd.id ∉ (taskPutUserFn reT1.assignedUser reT1.completed reUpd.assignedUser
      reUpd.completed reUpd.id reU1).pendingTasks ∧
    reUpd.id ∈ (taskPutUserFn reT1.assignedUser reT1.completed reUpd.assignedUser
      reUpd.completed reUpd.id reU2).pendingTasks := by
  have h := @C3_taskPut_pending_rules reStore reStore' "t1" reBody reUpd reT1
    (by decide) (by decide)
  exact ⟨((h.2 reU1 (by decide) _ rfl).1 (by decide)),
         ((h.2 reU2 (by decide) _ rfl).2.1 (by decide))⟩

/-- C4: on User replacement with a supplied pendingTasks set the coordinator
applies the symmetric difference: removed ids are unassigned only when the
task is currently assigned to this user; added ids are assigned to this user
(with the user's new name) unconditionally, regardless of previous assignee. -/
theorem C4_userPut_symmetric_difference {s s' : Store} {uid : String} {body : UserBody}
    {u' user : User} (hfind : findUser s uid = some user)
    (h : userPut s uid body = .ok (s', u')) :
    u'.pendingTasks = dedupFirst (body.pendingTasks.getD []) ∧
    u'.name = body.name.getD "" ∧
    s'.tasks = s.tasks.map (userPutTaskFn (removedIds user body) (addedIds user body)
      user.id (body.name.getD "")) ∧
    (∀ x, x ∈ removedIds user body ↔
      (x ∈ dedupFirst user.pendingTasks ∧ x ∉ dedupFirst (body.pendingTasks.getD []))) ∧
    (∀ x, x ∈ addedIds user body ↔
      (x ∈ dedupFirst (body.pendingTasks.getD []) ∧ x ∉ dedupFirst user.pendingTasks)) ∧
    ∀ t ∈ s.tasks, ∀ t',
      t' = userPutTaskFn (removedIds user body) (addedIds user body)
            user.id (body.name.getD "") t →
      ((t.id ∈ removedIds user body ∧ t.assignedUser = user.id) →
        t'.assignedUser = "" ∧ t'.assignedUserName = "unassigned" ∧
        t'.completed = t.completed ∧ t'.id = t.id) ∧
      ((t.id ∈ removedIds user body ∧ t.assignedUser ≠ user.id) → t' = t) ∧
      (t.id ∈ addedIds user body →
        t'.assignedUser = user.id ∧ t'.assignedUserName = body.name.getD "" ∧
        t'.completed = t.completed ∧ t'.id = t.id) ∧
      ((t.id ∉ removedIds user body ∧ t.id ∉ addedIds user body) → t' = t) := by
  obtain ⟨user1, hf', hn, he, hu', husers, htasks⟩ := userPut_ok h
  rw [hfind] at hf'
  injection hf' with hf'
  subst hf'
  have hrem : ∀ x, x ∈ removedIds user body ↔
      (x ∈ dedupFirst user.pendingTasks ∧ x ∉ dedupFirst (body.pendingTasks.getD [])) := by
    intro x; simp [removedIds, List.mem_filter]
  have hadd : ∀ x, x ∈ addedIds user body ↔
      (x ∈ dedupFirst (body.pendingTasks.getD []) ∧ x ∉ dedupFirst user.pendingTasks) := by
    intro x; simp [addedIds, List.mem_filter]
  refine ⟨by rw [hu'], by rw [hu'], htasks, hrem, hadd, fun t ht t' ht'eq => ?_⟩
  subst ht'eq
  refine ⟨?_, ?_, ?_, ?_⟩
  · rintro ⟨h1, h2⟩
    have hnadd : t.id ∉ addedIds user body := fun hc => ((hadd t.id).1 hc).2 ((hrem t.id).1 h1).1
    simp [userPutTaskFn, h1, h2, hnadd, clearTask]
  · rintro ⟨h1, h2⟩
    have hnadd : t.id ∉ addedIds user body := fun hc => ((hadd t.id).1 hc).2 ((hrem t.id).1 h1).1
    simp [userPutTaskFn, h2, hnadd]
  · intro h1
    have hnrem : t.id ∉ removedIds user body := fun hc => ((hadd t.id).1 h1).2 ((hrem t.id).1 hc).1
    simp [userPutTaskFn, hnrem, h1]
  · rintro ⟨h1, h2⟩
    simp [userPutTaskFn, h1, h2]

/-- Witness for C4: pendingTasks goes from [t1, t2] to [t2, t3]; t1 (removed,
owned) is unassigned, t3 (added) is claimed, t2 stays. -/
theorem C4_userPut_symmetric_difference_witness :
    swapUser'.pendingTasks = dedupFirst (swapBody.pendingTasks.getD []) ∧
    (userPutTaskFn (removedIds swapU swapBody) (addedIds swapU swapBody) swapU.id
      (swapBody.name.getD "") swapT1).assignedUser = "" ∧
    (userPutTaskFn (removedIds swapU swapBody) (addedIds swapU swapBody) swapU.id
      (swapBody.name.getD "") swapT3).assignedUser = swapU.id := by
  have h := @C4_userPut_symmetric_difference swapStore swapStore' "u1" swapBody
    swapUser' swapU (by decide) (by decide)
  exact ⟨h.1, ((h.2.2.2.2.2 swapT1 (by decide) _ rfl).1 (by decide)).1,
         ((h.2.2.2.2.2 swapT3 (by decide) _ rfl).2.2.1 (by decide)).1⟩

/-- C5: deleting a User unassigns every Task currently assigned to it
(regardless of completed status); deleting an assigned, not-completed Task
removes its id from the assignee's pendingTasks. -/
theorem C5_cascading_deletes (s : Store) :
    (∀ (uid : String) (s' : Store) (user : User), findUser s uid = some user →
      userDelete s uid = .ok s' →
      s'.tasks = s.tasks.map (fun t => if t.assignedUser = user.id then clearTask t else t) ∧
      (∀ t, t.assignedUser = user.id →
        (if t.assignedUser = user.id then clearTask t else t).assignedUser = "" ∧
        (if t.assignedUser = user.id then clearTask t else t).assignedUserName = "unassigned" ∧
        (if t.assignedUser = user.id then clearTask t else t).completed = t.completed) ∧
      (∀ t, t.assignedUser ≠ user.id →
        (if t.assignedUser = user.id then clearTask t else t) = t)) ∧
    (∀ (tid : String) (s' : Store) (t0 : Task), findTask s tid = some t0 →
      taskDelete s tid = .ok s' → t0.assignedUser ≠ "" → t0.completed = false →
      ∀ u' ∈ s'.users, u'.id = t0.assignedUser → t0.id ∉ u'.pendingTasks) := by
  constructor
  · intro uid s' user hfind h
    obtain ⟨user1, hf', husers, htasks⟩ := userDelete_ok h
    rw [hfind] at hf'
    injection hf' with hf'
    subst hf'
    refine ⟨htasks, fun t ht => ?_, fun t ht => ?_⟩
    · simp [ht, clearTask]
    · simp [ht]
  · intro tid s' t0 hfind h hassigned hcompleted
    obtain ⟨t1, hf', hs'⟩ := taskDelete_ok h
    rw [hfind] at hf'
    injection hf' with hf'
    subst hf'
    subst hs'
    intro u' hu' huid
    unfold taskDeleteApply at hu'
    rw [if_pos ⟨hassigned, hcompleted⟩] at hu'
    simp only [pullPendingStore, List.mem_map] at hu'
    obtain ⟨u, hu, rfl⟩ := hu'
    by_cases hui : u.id = t0.assignedUser
    · simp [hui, List.mem_filter]
    · rw [if_neg hui] at huid ⊢
      exact absurd huid hui

/-- Witness for C5: deleting U1 clears both its tasks (one of them already
completed); deleting task t1 empties U1's pendingTasks. -/
theorem C5_cascading_deletes_witness :
    (if delT2.assignedUser = delU.id then clearTask delT2 else delT2).assignedUser = "" ∧
    (if delT2.assignedUser = delU.id then clearTask delT2 else delT2).assignedUserName
      = "unassigned" ∧
    delT1.id ∉ (⟨"u1", "A", "a", [], 0⟩ : User).pendingTasks := by
  have ha := (C5_cascading_deletes delStore).1 "u1" delStore' delU (by decide) (by decide)
  have hb := (C5_cascading_deletes delStore).2 "t1" delStore2 delT1 (by decide) (by decide)
    (by decide) (by decide)
  exact ⟨(ha.2.1 delT2 (by decide)).1, (ha.2.1 delT2 (by decide)).2.1,
         hb ⟨"u1", "A", "a", [], 0⟩ (by decide) (by decide)⟩

/-- C7 counterexample: a negative skip is *not* treated as absent (it is
translated to `skip(-1)`), and an invalid limit on /tasks does *not* yield
the default limit of 100 (it yields no limit at all). -/
theorem C7_counterexample :
    skipDescriptor (some "-1") = some (-1) ∧ skipDescriptor none = none ∧
    skipDescriptor (some "-1") ≠ skipDescriptor none ∧
    tasksLimitDescriptor (some "-1") = none ∧ tasksLimitDescriptor none = some 100 ∧
    tasksLimitDescriptor (some "-1") ≠ tasksLimitDescriptor none := by decide

/-- C7 (amended): a non-numeric (`parseInt` = NaN) skip is treated as
absent; a negative skip is passed through to the store as-is; a non-numeric
or non-positive limit disables the limit entirely (bypassing the /tasks
default of 100); and no skip/limit value is ever rejected with an error. -/
theorem C7_skip_limit_amended (s : Store) (q : ListQuery Task) (v : String) :
    (parseIntJS v = none → v ≠ "" →
      tasksGet s { q with skipQ := some v } = tasksGet s { q with skipQ := none }) ∧
    (∀ n : Int, parseIntJS v = some n → v ≠ "" → skipDescriptor (some v) = some n) ∧
    (v ≠ "" → (parseIntJS v = none ∨ ∃ n, parseIntJS v = some n ∧ n ≤ 0) →
      tasksLimitDescriptor (some v) = none) ∧
    (∀ r, tasksGet s q = .ok r → ∀ sk lim : Option String,
      ∃ r', tasksGet s { q with skipQ := sk, limitQ := lim } = .ok r') := by
  refine ⟨?_, ?_, ?_, ?_⟩
  · intro hv hne
    have hsd : skipDescriptor (some v) = skipDescriptor none := by
      simp [skipDescriptor, hv, hne]
    simp only [tasksGet, listGet, hsd]
  · intro n hv hne
    simp [skipDescriptor, hne, hv]
  · rintro hne (hv | ⟨n, hv, hle⟩)
    · simp [tasksLimitDescriptor, limitDescriptor, hne, hv]
    · have hng : ¬ n > 0 := by omega
      simp [tasksLimitDescriptor, limitDescriptor, hne, hv, hng]
  · intro r h sk lim
    simp only [tasksGet, listGet] at h ⊢
    cases hw : q.whereQ with
    | none =>
      rw [hw] at h
      dsimp only at h ⊢
      by_cases hc : q.countQ = some "true"
      · simp [hc]
      · by_cases hs1 : q.sortQ = some false
        · rw [if_neg hc, if_pos hs1] at h; simp at h
        · by_cases hs2 : q.selectQ = some false
          · rw [if_neg hc, if_neg hs1, if_pos hs2] at h; simp at h
          · simp [hc, hs1, hs2]
    | some o =>
      cases o with
      | none => rw [hw] at h; simp at h
      | some p =>
        rw [hw] at h
        dsimp only at h ⊢
        by_cases hc : q.countQ = some "true"
        · simp [hc]
        · by_cases hs1 : q.sortQ = some false
          · rw [if_neg hc, if_pos hs1] at h; simp at h
          · by_cases hs2 : q.selectQ = some false
            · rw [if_neg hc, if_neg hs1, if_pos hs2] at h; simp at h
            · simp [hc, hs1, hs2]

/-- Witness for C7 (amended), at concrete parameter strings. -/
theorem C7_skip_limit_amended_witness :
    tasksGet q9Store { q9TasksQuery with skipQ := some "abc" }
      = tasksGet q9Store { q9TasksQuery with skipQ := none } ∧
    skipDescriptor (some "-1") = some (-1) ∧
    tasksLimitDescriptor (some "-5") = none := by
  refine ⟨(C7_skip_limit_amended q9Store q9TasksQuery "abc").1 (by decide) (by decide),
          (C7_skip_limit_amended q9Store q9TasksQuery "-1").2.1 (-1) (by decide) (by decide),
          (C7_skip_limit_amended q9Store q9TasksQuery "-5").2.2.1 (by decide)
            (Or.inr ⟨-5, by decide, by decide⟩)⟩

/-- C9: with no limit parameter, GET /tasks returns at most 100 records,
while GET /users returns every matching record. -/
theorem C9_default_limits (s : Store) (qt : ListQuery Task) (qu : ListQuery User) :
    (∀ l, qt.limitQ = none → tasksGet s qt = .ok (.records l) → l.length ≤ 100) ∧
    (qu.limitQ = none → qu.skipQ = none → qu.whereQ = none →
      ∀ l, usersGet s qu = .ok (.records l) → l = s.users) ∧
    (qu.limitQ = none → qu.skipQ = none → ∀ (p : User → Bool) l,
      qu.whereQ = some (some p) → usersGet s qu = .ok (.records l) →
      l = s.users.filter p) := by
  refine ⟨?_, ?_, ?_⟩
  · intro l hlim h
    simp only [tasksGet] at h
    cases hw : qt.whereQ with
    | none =>
      rw [listGet_run s.tasks qt (some 100) (fun _ => true) (Or.inl ⟨hw, rfl⟩)] at h
      split_ifs at h <;>
        first
          | (simp only [Except.ok.injEq, ListResult.records.injEq] at h
             subst h
             simp only [execQuery, hlim, limitDescriptor]
             exact le_trans (List.length_take_le _ _) (by decide))
          | simp at h
    | some o =>
      cases o with
      | none => rw [listGet_whereBad s.tasks qt (some 100) hw] at h; simp at h
      | some p =>
        rw [listGet_run s.tasks qt (some 100) p (Or.inr hw)] at h
        split_ifs at h <;>
          first
            | (simp only [Except.ok.injEq, ListResult.records.injEq] at h
               subst h
               simp only [execQuery, hlim, limitDescriptor]
               exact le_trans (List.length_take_le _ _) (by decide))
            | simp at h
  · intro hlim hskip hw l h
    simp only [usersGet] at h
    rw [listGet_run s.users qu none (fun _ => true) (Or.inl ⟨hw, rfl⟩)] at h
    split_ifs at h <;>
      first
        | (simp only [Except.ok.injEq, ListResult.records.injEq] at h
           subst h
           simp [execQuery, hlim, hskip, skipDescriptor, limitDescriptor, List.filter_true])
        | simp at h
  · intro hlim hskip p l hw h
    simp only [usersGet] at h
    rw [listGet_run s.users qu none p (Or.inr hw)] at h
    split_ifs at h <;>
      first
        | (simp only [Except.ok.injEq, ListResult.records.injEq] at h
           subst h
           simp [execQuery, hlim, hskip, skipDescriptor, limitDescriptor])
        | simp at h

/-- Witness for C9: a store with one task and two users, default queries. -/
theorem C9_default_limits_witness :
    ([q9T1] : List Task).length ≤ 100 ∧ ([q9U1, q9U2] : List User) = q9Store.users := by
  have h := C9_default_limits q9Store q9TasksQuery q9UsersQuery
  exact ⟨h.1 [q9T1] rfl (by decide), h.2.1 rfl rfl rfl [q9U1, q9U2] (by decide)⟩

/-- C8 counterexample: the successful Task DELETE response is 204 No Content
with an empty body — not a `{message, data}` envelope. -/
theorem C8_counterexample :
    (taskDeleteResponse invStore "t1").2.status = 204 ∧
    (taskDeleteResponse invStore "t1").2.body = RespBody.empty ∧
    (taskDeleteResponse invStore "t1").2.body.isEnvelope = false := by decide

/-- C8 (amended): every endpoint response carries a `{message, data}`
envelope, except the successful Task DELETE, which is 204 with an empty
body. -/
theorem C8_envelope_amended :
    (∀ (s : Store) (q : ListQuery Task), (tasksGetResponse s q).body.isEnvelope = true) ∧
    (∀ (s : Store) (q : ListQuery User), (usersGetResponse s q).body.isEnvelope = true) ∧
    (∀ (s : Store) (b : TaskBody) (fid : String) (now : Nat),
      (tasksPostResponse s b fid now).2.body.isEnvelope = true) ∧
    (∀ (s : Store) (tid : String) (selQ : Option Bool),
      (taskGetResponse s tid selQ).body.isEnvelope = true) ∧
    (∀ (s : Store) (tid : String) (b : TaskBody),
      (taskPutResponse s tid b).2.body.isEnvelope = true) ∧
    (∀ (s : Store) (b : UserBody) (fid : String) (now : Nat),
      (usersPostResponse s b fid now).2.body.isEnvelope = true) ∧
    (∀ (s : Store) (uid : String) (selQ : Option Bool),
      (userGetResponse s uid selQ).body.isEnvelope = true) ∧
    (∀ (s : Store) (uid : String) (b : UserBody),
      (userPutResponse s uid b).2.body.isEnvelope = true) ∧
    (∀ (s : Store) (uid : String), (userDeleteResponse s uid).2.body.isEnvelope = true) ∧
    (∀ (s : Store) (tid : String),
      (taskDeleteResponse s tid).2.body.isEnvelope = true ∨
      ((taskDeleteResponse s tid).2.status = 204 ∧
        (taskDeleteResponse s tid).2.body = RespBody.empty ∧
        (taskDelete s tid).isOk = true)) := by
  refine ⟨fun s q => ?_, fun s q => ?_, fun s b fid now => ?_, fun s tid selQ => ?_,
          fun s tid b => ?_, fun s b fid now => ?_, fun s uid selQ => ?_,
          fun s uid b => ?_, fun s uid => ?_, fun s tid => ?_⟩
  · cases h : tasksGet s q with
    | ok r => simp [tasksGetResponse, h, RespBody.isEnvelope]
    | error e => cases e <;> simp [tasksGetResponse, h, RespBody.isEnvelope]
  · cases h : usersGet s q with
    | ok r => simp [usersGetResponse, h, RespBody.isEnvelope]
    | error e => cases e <;> simp [usersGetResponse, h, RespBody.isEnvelope]
  · cases h : taskPost s b fid now with
    | ok r => simp [tasksPostResponse, h, RespBody.isEnvelope]
    | error e => cases e <;> simp [tasksPostResponse, h, RespBody.isEnvelope]
  · unfold taskGetResponse
    split
    · simp [RespBody.isEnvelope]
    · cases findTask s tid <;> simp [RespBody.isEnvelope]
  · cases h : taskPut s tid b with
    | ok r => simp [taskPutResponse, h, RespBody.isEnvelope]
    | error e => cases e <;> simp [taskPutResponse, h, RespBody.isEnvelope]
  · cases h : usersPost s b fid now with
    | ok r => simp [usersPostResponse, h, RespBody.isEnvelope]
    | error e => cases e <;> simp [usersPostResponse, h, RespBody.isEnvelope]
  · unfold userGetResponse
    split
    · simp [RespBody.isEnvelope]
    · cases findUser s uid <;> simp [RespBody.isEnvelope]
  · cases h : userPut s uid b with
    | ok r => simp [userPutResponse, h, RespBody.isEnvelope]
    | error e => cases e <;> simp [userPutResponse, h, RespBody.isEnvelope]
  · cases h : userDelete s uid with
    | ok r => simp [userDeleteResponse, h, RespBody.isEnvelope]
    | error e => cases e <;> simp [userDeleteResponse, h, RespBody.isEnvelope]
  · cases h : taskDelete s tid with
    | ok r => exact Or.inr (by simp [taskDeleteResponse, h, Except.isOk, Except.toBool])
    | error e => cases e <;> simp [taskDeleteResponse, h, RespBody.isEnvelope]

/-- C2 counterexample: the User replacement handler (part_000, no
`session`/`withTransaction` anywhere in that file) issues its writes
sequentially; if the store write after `user.save()` fails, the state
already differs from the pre-request state — the mutation is not atomic. -/
theorem C2_counterexample :
    userPutWrites atomStore "u1" atomBody = Except.ok (atomUser', atomWrites) ∧
    runWrites atomStore (atomWrites.take 1) ≠ atomStore ∧
    runWrites atomStore (atomWrites.take 1) ≠ runWrites atomStore atomWrites := by decide

/-- C2 (amended): Task create/replace/delete run inside
`session.withTransaction` (modelled all-or-nothing: an error returns no
store, the caller keeps the pre-request state); User replace and User delete
are *not* transactional — their final state is the sequential fold of their
write list over the store, and a strict prefix of that list (the state seen
if a later write fails) can differ from both the pre- and the post-state. -/
theorem C2_transactionality_amended :
    (∀ (s : Store) (uid : String) (b : UserBody) (out : Store × User),
      userPut s uid b = .ok out →
      ∃ u'' ws, userPutWrites s uid b = .ok (u'', ws) ∧
        out.1 = runWrites s ws ∧ out.2 = u'') ∧
    (∀ (s : Store) (uid : String) (s' : Store),
      userDelete s uid = .ok s' →
      ∃ ws, userDeleteWrites s uid = .ok ws ∧ s' = runWrites s ws) ∧
    (userPutWrites atomStore "u1" atomBody = Except.ok (atomUser', atomWrites) ∧
      runWrites atomStore (atomWrites.take 1) ≠ atomStore ∧
      runWrites atomStore (atomWrites.take 1) ≠ runWrites atomStore atomWrites) := by
  refine ⟨?_, ?_, by decide⟩
  · intro s uid b out h
    unfold userPut at h
    cases hw : userPutWrites s uid b with
    | error e => rw [hw] at h; simp at h
    | ok pr =>
      obtain ⟨u'', ws⟩ := pr
      rw [hw] at h
      simp only [Except.ok.injEq] at h
      exact ⟨u'', ws, rfl, by rw [← h], by rw [← h]⟩
  · intro s uid s' h
    unfold userDelete at h
    cases hw : userDeleteWrites s uid with
    | error e => rw [hw] at h; simp at h
    | ok ws =>
      rw [hw] at h
      simp only [Except.ok.injEq] at h
      exact ⟨ws, rfl, h.symm⟩

/-- Witness for C2 (amended): the decomposition applied to a concrete
successful User replacement. -/
theorem C2_transactionality_amended_witness :
    ∃ u'' ws, userPutWrites atomStore "u1" atomBody = Except.ok (u'', ws) ∧
      (runWrites atomStore atomWrites, atomUser').1 = runWrites atomStore ws ∧
      (runWrites atomStore atomWrites, atomUser').2 = u'' :=
  C2_transactionality_amended.1 atomStore "u1" atomBody
    (runWrites atomStore atomWrites, atomUser') (by decide)

/-- Invariant preservation by Task creation (with a fresh id). -/
theorem inv_taskPost {s s' : Store} {b : TaskBody} {fid : String} {now : Nat} {t : Task}
    (hwf : StoreWF s) (hinv : Invariant s) (hfresh : FreshId s fid)
    (h : taskPost s b fid now = .ok (s', t)) : Invariant s' := by
  obtain ⟨aU, aUN, hres, ht, hval, hs'⟩ := taskPost_ok h
  subst hs'
  have hid : t.id = fid := by rw [ht]
  unfold taskPostApply
  by_cases hc : t.assignedUser ≠ "" ∧ t.completed = false
  · rw [if_pos hc]
    intro t' ht' u' hu'
    simp only [addPendingStore, List.mem_map] at hu'
    obtain ⟨u, hum, rfl⟩ := hu'
    rcases List.mem_append.1 ht' with htm | htm
    · by_cases huu : u.id = t.assignedUser
      · rw [if_pos huu]
        have hne : t'.id ≠ t.id := by rw [hid]; exact hfresh.1 t' htm
        simp only [mem_addToSet, hne, false_or]
        exact hinv t' htm u hum
      · rw [if_neg huu]
        exact hinv t' htm u hum
    · have htt : t' = t := by simpa using htm
      subst htt
      by_cases huu : u.id = t'.assignedUser
      · rw [if_pos huu]
        exact iff_of_true ⟨huu.symm, hc.2⟩ (mem_addToSet.2 (Or.inl rfl))
      · rw [if_neg huu]
        refine iff_of_false (fun hx => huu hx.1.symm) ?_
        rw [hid]
        exact hfresh.2 u hum
  · rw [if_neg hc]
    intro t' ht' u' hu'
    rcases List.mem_append.1 ht' with htm | htm
    · exact hinv t' htm u' hu'
    · have htt : t' = t := by simpa using htm
      subst htt
      rcases Classical.em (t'.assignedUser = "") with hau | hau
      · refine iff_of_false (fun hx => hwf.2.2 u' hu' (hx.1.symm.trans hau)) ?_
        · rw [hid]; exact hfresh.2 u' hu'
      · have hco : ¬ t'.completed = false := fun hx => hc ⟨hau, hx⟩
        refine iff_of_false (fun hx => hco hx.2) ?_
        rw [hid]; exact hfresh.2 u' hu'

/-- Invariant preservation by Task replacement. -/
theorem inv_taskPut {s s' : Store} {tid : String} {b : TaskBody} {upd : Task}
    (hwf : StoreWF s) (hinv : Invariant s)
    (h : taskPut s tid b = .ok (s', upd)) : Invariant s' := by
  obtain ⟨t0, nA, nAN, hfind, hres, hupd, hval, hs'⟩ := taskPut_ok h
  subst hs'
  have ht0 := findTask_some hfind
  have hupd_id : upd.id = t0.id := by rw [hupd]
  intro t' ht' u' hu'
  simp only [taskPutApply, List.mem_map] at ht' hu'
  obtain ⟨r, hr, rfl⟩ := ht'
  obtain ⟨u, hu, rfl⟩ := hu'
  rw [taskPutUserFn_id]
  have huid : u.id ≠ "" := hwf.2.2 u hu
  by_cases hrid : r.id = upd.id
  · have hrt0 : r = t0 := hwf.2.1 r hr t0 ht0.1 (by rw [hrid, hupd_id])
    subst hrt0
    rw [if_pos hrid]
    have base := hinv r ht0.1 u hu
    rw [mem_taskPutUserFn_self]
    split_ifs with hc1 hc2 hc3
    · exact iff_of_true ⟨hc1.1.symm, hc1.2.2⟩ trivial
    · refine iff_of_false (fun hx => ?_) not_false
      exact Bool.false_ne_true (hx.2.symm.trans hc2.2.2.2.2)
    · refine iff_of_false (fun hx => ?_) not_false
      exact hc3.2.2 (hc3.1.symm.trans hx.1.symm)
    · rw [hupd_id, ← base]
      constructor
      · rintro ⟨h1, h2⟩
        exact absurd ⟨h1.symm, fun he => huid (h1.symm.trans he), h2⟩ hc1
      · rintro ⟨h4, h7⟩
        have hpane : r.assignedUser ≠ "" := fun he => huid (h4.symm.trans he)
        have hpa_eq : r.assignedUser = upd.assignedUser := by
          by_contra hne
          exact hc3 ⟨h4.symm, hpane, hne⟩
        have hnane : upd.assignedUser ≠ "" := fun he => hpane (hpa_eq.trans he)
        have hnc : upd.completed = false := by
          cases hb : upd.completed
          · rfl
          · exact absurd ⟨h4.symm.trans hpa_eq, hnane, hpa_eq, h7, hb⟩ hc2
        exact absurd ⟨h4.symm.trans hpa_eq, hnane, hnc⟩ hc1
  · rw [if_neg hrid]
    rw [mem_taskPutUserFn_other hrid]
    exact hinv r hr u hu

/-- Invariant preservation by Task deletion. -/
theorem inv_taskDelete {s s' : Store} {tid : String}
    (_hwf : StoreWF s) (hinv : Invariant s) (h : taskDelete s tid = .ok s') :
    Invariant s' := by
  obtain ⟨t0, hfind, hs'⟩ := taskDelete_ok h
  subst hs'
  unfold taskDeleteApply
  by_cases hc : t0.assignedUser ≠ "" ∧ t0.completed = false
  · rw [if_pos hc]
    intro t' ht' u' hu'
    simp only [pullPendingStore, List.mem_map] at hu'
    simp only [pullPendingStore, List.mem_filter, decide_eq_true_eq] at ht'
    obtain ⟨ht'm, ht'ne⟩ := ht'
    obtain ⟨u, hum, rfl⟩ := hu'
    by_cases huu : u.id = t0.assignedUser
    · rw [if_pos huu]
      simpa [List.mem_filter, ht'ne] using hinv t' ht'm u hum
    · rw [if_neg huu]
      exact hinv t' ht'm u hum
  · rw [if_neg hc]
    intro t' ht' u' hu'
    simp only [List.mem_filter, decide_eq_true_eq] at ht'
    exact hinv t' ht'.1 u' hu'

/-- Invariant preservation by User deletion (cascading unassignment). -/
theorem inv_userDelete {s s' : Store} {uid : String}
    (hwf : StoreWF s) (hinv : Invariant s) (h : userDelete s uid = .ok s') :
    Invariant s' := by
  obtain ⟨user, hfind, husers, htasks⟩ := userDelete_ok h
  intro t' ht' u' hu'
  rw [htasks] at ht'
  rw [husers] at hu'
  simp only [List.mem_map] at ht'
  simp only [List.mem_filter, decide_eq_true_eq] at hu'
  obtain ⟨t, htm, rfl⟩ := ht'
  obtain ⟨hum, hune⟩ := hu'
  by_cases hta : t.assignedUser = user.id
  · rw [if_pos hta]
    refine iff_of_false ?_ ?_
    · rintro ⟨hx, -⟩
      exact hwf.2.2 u' hum hx.symm
    · intro hx
      have hconj := (hinv t htm u' hum).2 hx
      exact hune (hconj.1.symm.trans hta)
  · rw [if_neg hta]
    exact hinv t htm u' hum

/-- Invariant preservation by User replacement, provided every id added to
the pending set refers to no existing Task or to a not-completed Task that
is unassigned or already assigned to this user. -/
theorem inv_userPut {s s' : Store} {uid : String} {b : UserBody} {u' user : User}
    (hwf : StoreWF s) (hinv : Invariant s)
    (hfind : findUser s uid = some user)
    (hadded : ∀ t ∈ s.tasks, t.id ∈ addedIds user b →
      t.completed = false ∧ (t.assignedUser = "" ∨ t.assignedUser = user.id))
    (h : userPut s uid b = .ok (s', u')) : Invariant s' := by
  obtain ⟨user1, hf', hn, he, hu', husers, htasks⟩ := userPut_ok h
  rw [hfind] at hf'
  injection hf' with hf'
  subst hf'
  have humem := (findUser_some hfind).1
  have hrem : ∀ x, x ∈ removedIds user b ↔
      (x ∈ user.pendingTasks ∧ x ∉ dedupFirst (b.pendingTasks.getD [])) := by
    intro x; simp [removedIds, List.mem_filter, mem_dedupFirst]
  have haddm : ∀ x, x ∈ addedIds user b ↔
      (x ∈ dedupFirst (b.pendingTasks.getD []) ∧ x ∉ user.pendingTasks) := by
    intro x; simp [addedIds, List.mem_filter, mem_dedupFirst]
  have hpend : u'.pendingTasks = dedupFirst (b.pendingTasks.getD []) := by rw [hu']
  have hid' : u'.id = user.id := by rw [hu']
  intro t' ht' uu huu'
  rw [htasks] at ht'
  rw [husers] at huu'
  simp only [List.mem_map] at ht' huu'
  obtain ⟨t, htm, rfl⟩ := ht'
  obtain ⟨u, hum, rfl⟩ := huu'
  by_cases hc1 : t.id ∈ removedIds user b ∧ t.assignedUser = user.id
  · have hnadd : t.id ∉ addedIds user b :=
      fun hx => ((haddm t.id).1 hx).2 ((hrem t.id).1 hc1.1).1
    have ht'eq : userPutTaskFn (removedIds user b) (addedIds user b) user.id
        (b.name.getD "") t = clearTask t := by
      simp [userPutTaskFn, hc1.1, hc1.2, hnadd, clearTask]
    rw [ht'eq]
    by_cases huu : u.id = user.id
    · rw [if_pos huu]
      have hueq : u = user := hwf.1 u hum user humem huu
      subst hueq
      refine iff_of_false ?_ ?_
      · rintro ⟨hx, -⟩
        exact hwf.2.2 u humem (hid'.symm.trans hx.symm)
      · intro hx
        rw [hpend] at hx
        exact ((hrem t.id).1 hc1.1).2 hx
    · rw [if_neg huu]
      refine iff_of_false ?_ ?_
      · rintro ⟨hx, -⟩
        exact hwf.2.2 u hum hx.symm
      · intro hx
        have hconj := (hinv t htm u hum).2 hx
        exact huu (hconj.1.symm.trans hc1.2)
  · by_cases hc2 : t.id ∈ addedIds user b
    · have hdata := hadded t htm hc2
      have hnrem : t.id ∉ removedIds user b :=
        fun hx => ((haddm t.id).1 hc2).2 ((hrem t.id).1 hx).1
      have ht'eq : userPutTaskFn (removedIds user b) (addedIds user b) user.id
          (b.name.getD "") t
          = { t with assignedUser := user.id, assignedUserName := b.name.getD "" } := by
        simp [userPutTaskFn, hnrem, hc2]
      rw [ht'eq]
      by_cases huu : u.id = user.id
      · rw [if_pos huu]
        have hueq : u = user := hwf.1 u hum user humem huu
        subst hueq
        refine iff_of_true ⟨hid'.symm, hdata.1⟩ ?_
        rw [hpend]
        exact ((haddm t.id).1 hc2).1
      · rw [if_neg huu]
        refine iff_of_false ?_ ?_
        · rintro ⟨hx, -⟩
          exact huu hx.symm
        · intro hx
          have hconj := (hinv t htm u hum).2 hx
          rcases hdata.2 with hae | hae
          · exact hwf.2.2 u hum (hconj.1.symm.trans hae)
          · exact huu (hconj.1.symm.trans hae)
    · have ht'eq : userPutTaskFn (removedIds user b) (addedIds user b) user.id
          (b.name.getD "") t = t := by
        simp [userPutTaskFn, hc1, hc2]
      rw [ht'eq]
      by_cases huu : u.id = user.id
      · rw [if_pos huu]
        have hueq : u = user := hwf.1 u hum user humem huu
        subst hueq
        rw [hid', hpend]
        constructor
        · rintro ⟨h1, h2⟩
          have hmem : t.id ∈ u.pendingTasks := (hinv t htm u humem).1 ⟨h1, h2⟩
          have hnr : t.id ∉ removedIds u b := fun hx => hc1 ⟨hx, h1⟩
          by_contra hnot
          exact hnr ((hrem t.id).2 ⟨hmem, hnot⟩)
        · intro hx
          have hmem : t.id ∈ u.pendingTasks := by
            by_contra hnot
            exact hc2 ((haddm t.id).2 ⟨hx, hnot⟩)
          exact (hinv t htm u humem).2 hmem
      · rw [if_neg huu]
        exact hinv t htm u hum

/-- C1 counterexample: starting from a wellformed store satisfying the
invariant (one user, one *completed* unassigned task), a successful User
replacement that adds the completed task's id to pendingTasks commits a
store that violates the invariant: the task is in the user's pendingTasks
and assigned to the user, yet completed. -/
theorem C1_counterexample :
    StoreWF brkStore ∧ Invariant brkStore ∧
    userPut brkStore "u1" brkBody = Except.ok (brkStore', brkUser') ∧
    ¬ Invariant brkStore' := by decide

/-- C1 (amended): on a wellformed store satisfying the invariant, every
successful Task create (with a fresh id), Task replace, Task delete and User
delete preserves the invariant; a successful User replace preserves it
provided every id newly added to the pending set refers to no existing Task,
or to a Task that is not completed and is unassigned or already assigned to
this user.  (Without that proviso User replace can break the invariant —
see the counterexample.) -/
theorem C1_invariant_preservation {s : Store} (hwf : StoreWF s) (hinv : Invariant s) :
    (∀ (b : TaskBody) (fid : String) (now : Nat) (s' : Store) (t : Task),
      FreshId s fid → taskPost s b fid now = .ok (s', t) → Invariant s') ∧
    (∀ (tid : String) (b : TaskBody) (s' : Store) (t : Task),
      taskPut s tid b = .ok (s', t) → Invariant s') ∧
    (∀ (tid : String) (s' : Store), taskDelete s tid = .ok s' → Invariant s') ∧
    (∀ (uid : String) (s' : Store), userDelete s uid = .ok s' → Invariant s') ∧
    (∀ (uid : String) (b : UserBody) (s' : Store) (u' user : User),
      findUser s uid = some user →
      (∀ t ∈ s.tasks, t.id ∈ addedIds user b →
        t.completed = false ∧ (t.assignedUser = "" ∨ t.assignedUser = user.id)) →
      userPut s uid b = .ok (s', u') → Invariant s') :=
  ⟨fun _ _ _ _ _ hfresh h => inv_taskPost hwf hinv hfresh h,
   fun _ _ _ _ h => inv_taskPut hwf hinv h,
   fun _ _ h => inv_taskDelete hwf hinv h,
   fun _ _ h => inv_userDelete hwf hinv h,
   fun _ _ _ _ _ hfind hadded h => inv_userPut hwf hinv hfind hadded h⟩

/-- Witness for C1 (amended): deleting the single pending task of the
witness store preserves the invariant. -/
theorem C1_invariant_preservation_witness : Invariant invStore' :=
  (@C1_invariant_preservation invStore (by decide) (by decide)).2.2.1 "t1" invStore'
    (by decide)

end TaskApi
